import Mathlib

/-!
Verification development for the `flows_to_api` schema-inference and merge
engine.  The Python source (`flows_to_api.py`) is shallowly embedded below:
JSON-compatible Python values become the inductive type `J`, and every
fallible Python function becomes a function into `Except Err _`, where the
`Err` constructors model the Python exception kinds (`TypeError`,
`ValueError`, `KeyError`/`AttributeError`, `IndexError`).
-/

namespace FlowsToApi

/-- A JSON-compatible Python value: the dynamic values that flow through the
source program (decoded JSON bodies, schema dictionaries, OpenAPI records).
Numbers are modelled as integers: the source treats `int` and `float`
identically everywhere (`isinstance(value, (int, float))`), and no claim
depends on non-integer numeric values. -/
inductive J : Type where
  | str (s : String) : J
  | num (n : Int) : J
  | bool (b : Bool) : J
  | null : J
  | arr (xs : List J) : J
  | obj (kvs : List (String × J)) : J

/-- Exception kinds raised by the embedded code, mirroring the Python
exceptions: `typeError` (TypeError/AttributeError), `valueError`,
`keyError`, `indexError`.  `fuel` never occurs for the fuel bounds the
wrappers below pick; it only makes the fuelled recursion total. -/
inductive Err : Type where
  | typeError : Err
  | valueError : Err
  | keyError (k : String) : Err
  | indexError : Err
  | fuel : Err
  deriving Repr, DecidableEq

/-- Left-to-right effectful map, mirroring how a Python comprehension
evaluates its element expressions in order and propagates the first
exception. -/
def mapE (f : α → Except Err β) : List α → Except Err (List β)
  | [] => .ok []
  | x :: xs => do
    let y ← f x
    let ys ← mapE f xs
    .ok (y :: ys)

/-- Association-list lookup (first match), modelling `d[k]` / `d.get(k)` on a
Python dict held as an ordered key/value list.  Dicts produced by the source
never carry duplicate keys, so first-match agrees with Python. -/
def alookup (k : String) : List (String × α) → Option α
  | [] => none
  | (k', v) :: rest => if k' == k then some v else alookup k rest

/-- Python truthiness of a value, as used by `[s for s in schemas if s]`. -/
def pyTruthy : J → Bool
  | .str s => !s.data.isEmpty
  | .num n => n != 0
  | .bool b => b
  | .null => false
  | .arr xs => !xs.isEmpty
  | .obj kvs => !kvs.isEmpty

/-- Deduplication keeping first occurrences.  Python set iteration order is
unspecified; the embedding fixes first-occurrence order as its canonical
order (all order-sensitive claims below are stated order-insensitively or
proved against this canonical choice). -/
def dedupAux (seen : List String) : List String → List String
  | [] => []
  | x :: xs => if seen.contains x then dedupAux seen xs else x :: dedupAux (x :: seen) xs

/-- Deduplicate a list of strings, keeping first occurrences. -/
def dedup (l : List String) : List String := dedupAux [] l

/-- Insert or update a key in an ordered dict, as Python dict assignment
does: an existing key keeps its position and gets the new value, a new key
is appended. -/
def dictInsert : List (String × J) → String → J → List (String × J)
  | [], k, v => [(k, v)]
  | (k', v') :: rest, k, v =>
    if k' == k then (k, v) :: rest else (k', v') :: dictInsert rest k v

/-- Split a character list on a separator character; models Python
`str.split(sep)` (so the empty string yields `[""]`). -/
def splitCh (sep : Char) : List Char → List (List Char)
  | [] => [[]]
  | c :: cs =>
    if c == sep then [] :: splitCh sep cs
    else
      match splitCh sep cs with
      | [] => [[c]]
      | h :: t => (c :: h) :: t

/-- Python `s.split(sep)` for a one-character separator. -/
def pySplit (s : String) (sep : Char) : List String := (splitCh sep s.data).map String.mk

/-- Rejoin character chunks with a separator character. -/
def joinWith (sep : Char) : List (List Char) → List Char
  | [] => []
  | [x] => x
  | x :: xs => x ++ sep :: joinWith sep xs

/-- Python `s.split(sep, 1)` for a one-character separator: at most one
split, at the first occurrence. -/
def pySplit1 (s : String) (sep : Char) : List String :=
  match splitCh sep s.data with
  | [] => [String.mk []]
  | [x] => [String.mk x]
  | x :: rest => [String.mk x, String.mk (joinWith sep rest)]

/-- Join a list of strings with a separator string (Python string join). -/
def joinStr (sep : String) : List String → String
  | [] => ""
  | [x] => x
  | x :: xs => x ++ sep ++ joinStr sep xs

/-- Decimal value of a digit string (Python `int(s)` for an `isdigit`
string). -/
def strToNat (s : String) : Nat := s.data.foldl (fun a c => a * 10 + (c.toNat - 48)) 0

/-- Decimal rendering of a natural number (Python `str(i)`). -/
def natToStrAux : Nat → Nat → List Char
  | 0, _ => []
  | f + 1, n =>
    if n < 10 then [Char.ofNat (48 + n)]
    else natToStrAux f (n / 10) ++ [Char.ofNat (48 + n % 10)]

/-- Decimal rendering of a natural number (Python `str(i)`). -/
def natToStr (n : Nat) : String := String.mk (natToStrAux (n + 1) n)

/-- Hexadecimal digit test, the `[0-9a-fA-F]` character class of the UUID
regular expression. -/
def isHexDig (c : Char) : Bool :=
  c.isDigit || (decide ('a' ≤ c) && decide (c ≤ 'f')) || (decide ('A' ≤ c) && decide (c ≤ 'F'))

/-- Value of a hexadecimal digit character. -/
def hexVal (c : Char) : Nat :=
  if c.isDigit then c.toNat - 48
  else if decide ('a' ≤ c) then c.toNat - 87
  else c.toNat - 55

/-- Percent-decoding of a character list: `%XX` with two hex digits becomes
the character with that code; malformed `%` sequences are kept literally.
This models `urllib.parse.unquote` on ASCII data (multi-byte UTF-8
sequences are not modelled; no claim involves them). -/
def pctDecodeL : List Char → List Char
  | '%' :: a :: b :: rest =>
    if isHexDig a && isHexDig b then Char.ofNat (16 * hexVal a + hexVal b) :: pctDecodeL rest
    else '%' :: pctDecodeL (a :: b :: rest)
  | c :: rest => c :: pctDecodeL rest
  | [] => []

/-- Model of `urllib.parse.unquote` as called by the source on a value of
unknown type.  CPython's `unquote` first tests `isinstance(string, bytes)`
and then evaluates `'%' not in string`; for an `int` argument the `in`
operator raises `TypeError: argument of type 'int' is not iterable`.  So
`unquote` succeeds on strings and raises `TypeError` on every other value. -/
def unquote : J → Except Err J
  | .str s => .ok (.str (String.mk (pctDecodeL s.data)))
  | _ => .error .typeError

mutual
/-- Structural size of a value, used to seed the fuel of the schema-merge
recursion. -/
def jSize : J → Nat
  | .str _ => 1
  | .num _ => 1
  | .bool _ => 1
  | .null => 1
  | .arr xs => 1 + jSizeL xs
  | .obj kvs => 1 + jSizeO kvs

/-- Total size of a list of values. -/
def jSizeL : List J → Nat
  | [] => 0
  | x :: xs => jSize x + jSizeL xs

/-- Total size of the values of a key/value list. -/
def jSizeO : List (String × J) → Nat
  | [] => 0
  | (_, v) :: rest => 1 + jSize v + jSizeO rest
end

/-- Python `str.isdigit` restricted to ASCII: nonempty and all decimal
digits.  (Python also accepts some non-ASCII digit characters; no claim
involves them.) -/
def pyIsdigit (s : String) : Bool := !s.data.isEmpty && s.data.all Char.isDigit

/-- The source's `_UUID_RE` test: five groups of hex digits of lengths
8-4-4-4-12 separated by `-`, anchored at both ends.  Splitting on `-` and
checking group lengths and the hex character class is equivalent to the
anchored regular expression. -/
def uuidRe (s : String) : Bool :=
  match pySplit s '-' with
  | [a, b, c, d, e] =>
    a.data.length == 8 && b.data.length == 4 && c.data.length == 4 &&
    d.data.length == 4 && e.data.length == 12 &&
    (a.data ++ b.data ++ c.data ++ d.data ++ e.data).all isHexDig
  | _ => false

/-- `is_parameter` from the source: a path segment looks like a parameter if
it is all decimal digits or matches the UUID pattern. -/
def is_parameter (value : String) : Bool := pyIsdigit value || uuidRe value

/-- `guess_type` from the source: a digit-only string yields schema
`{type: number}` together with the string converted to an integer; any
other string yields `{type: string}` with the string itself. -/
def guess_type (strvalue : String) : J × J :=
  if pyIsdigit strvalue then (J.obj [("type", J.str "number")], J.num (strToNat strvalue))
  else (J.obj [("type", J.str "string")], J.str strvalue)

/-- `s['type']` on a schema dict, as a string.  A missing key raises
`KeyError` exactly as in Python.  The embedding additionally requires the
tag to be a string (the source only ever stores string type tags). -/
def getType (s : J) : Except Err String :=
  match s with
  | .obj kvs =>
    match alookup "type" kvs with
    | some (J.str t) => .ok t
    | some _ => .error .typeError
    | none => .error (.keyError "type")
  | _ => .error .typeError

/-- `s[k]` on a dict value: `KeyError` when the key is absent, `TypeError`
when the value is not a dict. -/
def getKey (s : J) (k : String) : Except Err J :=
  match s with
  | .obj kvs =>
    match alookup k kvs with
    | some v => .ok v
    | none => .error (.keyError k)
  | _ => .error .typeError

/-- Boolean form of the comparison `s['type'] == t` as used in the filters
of `schema_merge` (at those points every schema is known to carry a type). -/
def typeIs (t : String) (s : J) : Bool :=
  match s with
  | .obj kvs =>
    match alookup "type" kvs with
    | some (J.str u) => u == t
    | _ => false
  | _ => false

/-- View a value as a dict's entry list: `AttributeError` (modelled as
`typeError`) when the value is not a dict, as `sp.keys()` would raise. -/
def asObjEntries : J → Except Err (List (String × J))
  | .obj kvs => .ok kvs
  | _ => .error .typeError

/-- `schema_merge` from the source, with an explicit fuel argument making
the recursion (into `anyOf` alternatives, array `items` and object
properties) total.  The wrapper `schema_merge` below seeds the fuel with a
bound that the recursion never exhausts, so `Err.fuel` never occurs there.
Branches follow the source line by line:
list check (a Lean type guarantee), empty-list `ValueError`, truthiness
filter, singleton fast path, all-empty fast path, type-set computation
(`KeyError` on a schema without `'type'`), null removal with `nullable`
flag, `anyOf` for several types, and the per-type branches for primitive,
array and object types.  A duplicate property key is merged once here while
Python recomputes the identical merge per occurrence; results and the first
error raised agree.  For an unrecognised single type the Python function
falls off its end and returns `None`. -/
def schemaMergeF : Nat → List J → Except Err J
  | 0, _ => .error .fuel
  | fuel + 1, schemas =>
    if schemas.isEmpty then .error .valueError
    else
      match schemas.filter pyTruthy with
      | [s] => .ok s
      | [] => .ok (J.obj [])
      | s1 :: s2 :: srest => do
        let schemas := s1 :: s2 :: srest
        let types := dedup (← mapE getType schemas)
        let hasNull := types.contains "null"
        let types := if hasNull then types.filter (fun t => t != "null") else types
        let schemas := if hasNull then schemas.filter (fun s => !typeIs "null" s) else schemas
        let nullFlag : List (String × J) := if hasNull then [("nullable", J.bool true)] else []
        match types with
        | [] => .ok (J.obj [("nullable", J.bool true)])
        | [theType] =>
          if theType == "string" || theType == "number" || theType == "boolean" then
            .ok (J.obj (nullFlag ++ [("type", J.str theType)]))
          else if theType == "array" then do
            let itemsList ← mapE (fun s => getKey s "items") schemas
            let items ← schemaMergeF fuel itemsList
            .ok (J.obj (nullFlag ++ [("type", J.str theType), ("items", items)]))
          else if theType == "object" then do
            let spropsJ ← mapE (fun s => getKey s "properties") schemas
            let sprops ← mapE asObjEntries spropsJ
            let allProps := (sprops.map (fun kvs => kvs.map Prod.fst)).flatten
            let pairs ← mapE (fun prop => do
                let merged ← schemaMergeF fuel (sprops.filterMap (fun kvs => alookup prop kvs))
                pure (prop, merged)) (dedup allProps)
            .ok (J.obj (nullFlag ++ [("type", J.str theType), ("properties", J.obj pairs)]))
          else
            .ok J.null
        | t1 :: t2 :: trest => do
          let alts ← mapE (fun t => schemaMergeF fuel (schemas.filter (typeIs t))) (t1 :: t2 :: trest)
          .ok (J.obj (nullFlag ++ [("anyOf", J.arr alts)]))

/-- `schema_merge` from the source.  Every internal recursive call strictly
decreases the total size of the schema list, so total size plus one is
enough fuel. -/
def schema_merge (schemas : List J) : Except Err J :=
  schemaMergeF (jSizeL schemas + 1) schemas

/-- In Python, `bool` is a subclass of `int`, so
`isinstance(value, (int, float))` is `True` for booleans as well. -/
def isinstance_int_float : J → Bool
  | .num _ => true
  | .bool _ => true
  | _ => false

/-- `isinstance(value, str)`. -/
def isinstance_str : J → Bool
  | .str _ => true
  | _ => false

/-- `isinstance(value, bool)`. -/
def isinstance_bool : J → Bool
  | .bool _ => true
  | _ => false

/-- `value is None`. -/
def isinstance_none : J → Bool
  | .null => true
  | _ => false

mutual
/-- `create_schema_for_value` from the source, with the `isinstance` tests
performed in the source's order (string, int-or-float, bool, None, list,
dict); any other shape raises `TypeError`. -/
def create_schema_for_value (value : J) : Except Err J :=
  if isinstance_str value then .ok (J.obj [("type", J.str "string")])
  else if isinstance_int_float value then .ok (J.obj [("type", J.str "number")])
  else if isinstance_bool value then .ok (J.obj [("type", J.str "boolean")])
  else if isinstance_none value then .ok (J.obj [("type", J.str "null")])
  else
    match value with
    | J.arr vs =>
      if vs.isEmpty then .ok (J.obj [("type", J.str "array"), ("items", J.obj [])])
      else do
        let subs ← csvList vs
        let items ← schema_merge subs
        .ok (J.obj [("type", J.str "array"), ("items", items)])
    | J.obj kvs => do
      let props ← csvProps kvs
      .ok (J.obj [("type", J.str "object"), ("properties", J.obj props),
        ("required", J.arr (kvs.map (fun kv => J.str kv.1)))])
    | _ => .error .typeError

/-- Element-wise schema inference for a list value (the comprehension in the
list branch). -/
def csvList : List J → Except Err (List J)
  | [] => .ok []
  | v :: vs => do .ok ((← create_schema_for_value v) :: (← csvList vs))

/-- Key-wise schema inference for a dict value (the comprehension in the
dict branch). -/
def csvProps : List (String × J) → Except Err (List (String × J))
  | [] => .ok []
  | (k, v) :: rest => do .ok ((k, ← create_schema_for_value v) :: (← csvProps rest))
end

/-- The per-segment loop of `url_to_params`: a parameter-looking segment is
replaced by a `\x7bparamN\x7d` placeholder and yields a Parameter Object
whose example is `urllib.parse.unquote` of the value returned by
`guess_type` — an `int` for digit segments, on which `unquote` raises
`TypeError`. -/
def utpGo : List String → Nat → Except Err (List String × List J)
  | [], _ => .ok ([], [])
  | part :: rest, i =>
    if is_parameter part then do
      let (sch, v0) := guess_type part
      let v ← unquote v0
      let (us, ps) ← utpGo rest (i + 1)
      .ok (("\x7bparam" ++ natToStr i ++ "\x7d") :: us,
        (J.obj [("name", J.str ("param" ++ natToStr i)), ("in", J.str "path"),
          ("required", J.bool true), ("schema", sch), ("example", v)]) :: ps)
    else do
      let (us, ps) ← utpGo rest i
      .ok (part :: us, ps)

/-- `url_to_params` from the source: split on `/`, drop the leading empty
segment, templatize parameter segments, and return the templated URL with
the Parameter Object list. -/
def url_to_params (url : String) : Except Err (String × List J) := do
  let (us, ps) ← utpGo ((pySplit url '/').drop 1) 0
  .ok ("/" ++ joinStr "/" us, ps)

/-- JSON whitespace characters. -/
def jsonWs (c : Char) : Bool := c == ' ' || c == '\t' || c == '\n' || c == '\r'

/-- Drop leading JSON whitespace. -/
def skipWs : List Char → List Char
  | c :: cs => if jsonWs c then skipWs cs else c :: cs
  | [] => []

/-- Parse the digits-and-suffix part of a JSON number, returning its integer
part (fractional and exponent parts are accepted and discarded: the source
never depends on non-integer numeric values, only on acceptance). -/
def jsonNum (cs : List Char) : Option (Nat × List Char) :=
  let ds := cs.takeWhile Char.isDigit
  let rest := cs.dropWhile Char.isDigit
  if ds.isEmpty then none
  else
    let rest2 :=
      match rest with
      | '.' :: r => if (r.takeWhile Char.isDigit).isEmpty then rest else r.dropWhile Char.isDigit
      | _ => rest
    let rest3 :=
      match rest2 with
      | 'e' :: r =>
        let r' := match r with | '+' :: rr => rr | '-' :: rr => rr | rr => rr
        if (r'.takeWhile Char.isDigit).isEmpty then rest2 else r'.dropWhile Char.isDigit
      | 'E' :: r =>
        let r' := match r with | '+' :: rr => rr | '-' :: rr => rr | rr => rr
        if (r'.takeWhile Char.isDigit).isEmpty then rest2 else r'.dropWhile Char.isDigit
      | _ => rest2
    some ((ds.foldl (fun a c => a * 10 + (c.toNat - 48)) 0), rest3)

mutual
/-- Fuelled recursive-descent JSON parser modelling `json.loads`.  On the
acceptance side it is slightly more liberal than Python (it ignores the
leading-zero rule and allows raw control characters inside strings): a
string this model rejects is also rejected by Python, which is the safe
direction for the hypotheses `jsonLoads c = none` used below.  `NaN`,
`Infinity` and `-Infinity` are accepted (as Python does) with a placeholder
numeric value. -/
def jsonVal : Nat → List Char → Option (J × List Char)
  | 0, _ => none
  | f + 1, cs =>
    match skipWs cs with
    | '{' :: rest =>
      (match skipWs rest with
       | '}' :: rest2 => some (.obj [], rest2)
       | rest2 => jsonMembers f rest2 [])
    | '[' :: rest =>
      (match skipWs rest with
       | ']' :: rest2 => some (.arr [], rest2)
       | rest2 => do
          let (v, r) ← jsonVal f rest2
          jsonElems f r [v])
    | '"' :: rest => do
      let (s, r) ← jsonStr f rest []
      some (.str s, r)
    | 't' :: 'r' :: 'u' :: 'e' :: rest => some (.bool true, rest)
    | 'f' :: 'a' :: 'l' :: 's' :: 'e' :: rest => some (.bool false, rest)
    | 'n' :: 'u' :: 'l' :: 'l' :: rest => some (.null, rest)
    | 'N' :: 'a' :: 'N' :: rest => some (.num 0, rest)
    | 'I' :: 'n' :: 'f' :: 'i' :: 'n' :: 'i' :: 't' :: 'y' :: rest => some (.num 0, rest)
    | '-' :: rest =>
      (match rest with
       | 'I' :: 'n' :: 'f' :: 'i' :: 'n' :: 'i' :: 't' :: 'y' :: rest2 => some (.num 0, rest2)
       | _ => do
          let (n, r) ← jsonNum rest
          some (.num (-(n : Int)), r))
    | c :: rest =>
      if c.isDigit then do
        let (n, r) ← jsonNum (c :: rest)
        some (.num (n : Int), r)
      else none
    | [] => none

/-- Array elements after the first one. -/
def jsonElems : Nat → List Char → List J → Option (J × List Char)
  | 0, _, _ => none
  | f + 1, cs, acc =>
    match skipWs cs with
    | ',' :: rest => do
      let (v, r) ← jsonVal f rest
      jsonElems f r (acc ++ [v])
    | ']' :: rest => some (.arr acc, rest)
    | _ => none

/-- Object members; duplicate keys keep the first position and the last
value, as in a Python dict. -/
def jsonMembers : Nat → List Char → List (String × J) → Option (J × List Char)
  | 0, _, _ => none
  | f + 1, cs, acc =>
    match skipWs cs with
    | '"' :: rest => do
      let (k, r1) ← jsonStr f rest []
      (match skipWs r1 with
       | ':' :: r2 => do
          let (v, r3) ← jsonVal f r2
          (match skipWs r3 with
           | ',' :: r4 => jsonMembers f r4 (dictInsert acc k v)
           | '}' :: r4 => some (.obj (dictInsert acc k v), r4)
           | _ => none)
       | _ => none)
    | _ => none

/-- JSON string body after the opening quote. -/
def jsonStr : Nat → List Char → List Char → Option (String × List Char)
  | 0, _, _ => none
  | f + 1, cs, acc =>
    match cs with
    | '"' :: rest => some (String.mk acc, rest)
    | '\\' :: e :: rest =>
      (match e with
       | '"' => jsonStr f rest (acc ++ ['"'])
       | '\\' => jsonStr f rest (acc ++ ['\\'])
       | '/' => jsonStr f rest (acc ++ ['/'])
       | 'b' => jsonStr f rest (acc ++ [Char.ofNat 8])
       | 'f' => jsonStr f rest (acc ++ [Char.ofNat 12])
       | 'n' => jsonStr f rest (acc ++ ['\n'])
       | 'r' => jsonStr f rest (acc ++ ['\r'])
       | 't' => jsonStr f rest (acc ++ ['\t'])
       | 'u' =>
         (match rest with
          | a :: b :: c :: d :: rest2 =>
            if isHexDig a && isHexDig b && isHexDig c && isHexDig d then
              jsonStr f rest2
                (acc ++ [Char.ofNat (4096 * hexVal a + 256 * hexVal b + 16 * hexVal c + hexVal d)])
            else none
          | _ => none)
       | _ => none)
    | c :: rest => jsonStr f rest (acc ++ [c])
    | [] => none
end

/-- `json.loads`: parse one JSON value and require only whitespace after
it. -/
def jsonLoads (content : String) : Option J :=
  match jsonVal (2 * content.data.length + 2) content.data with
  | some (v, rest) => if (skipWs rest).isEmpty then some v else none
  | none => none

/-- `jsonify` from the source: strip content-type parameters, try a JSON
parse first (mapping success to `application/json`), else decode a
form-urlencoded body by splitting pairs on `&` and each pair on the first
`=` — where the `k, v` unpacking of a pair without `=` raises `ValueError`
— else fall back to the raw string. -/
def jsonify (content : String) (mimeType : String) : Except Err (J × String) :=
  let mt := match pySplit1 mimeType ';' with
    | m :: _ => m
    | [] => mimeType
  match jsonLoads content with
  | some v => .ok (v, "application/json")
  | none =>
    if mt == "application/x-www-form-urlencoded" then do
      let pairs ← mapE (fun pt =>
          match pySplit1 pt '=' with
          | [k, v] => Except.ok (k, J.str v)
          | _ => Except.error Err.valueError) (pySplit content '&')
      .ok (.obj (pairs.foldl (fun acc kv => dictInsert acc kv.1 kv.2) []), mt)
    else .ok (.str content, mt)

/-- The type of the source's merge functions: `List[T] -> T` over dynamic
values, with Python exceptions made explicit. -/
abbrev MergeFn := List J → Except Err J

/-- `_first_merge` from the source: `items[0]`, raising `IndexError` on an
empty list. -/
def _first_merge : MergeFn := fun items =>
  match items with
  | x :: _ => .ok x
  | [] => .error .indexError

/-- `d.keys()` of a dict value; `AttributeError` (modelled as `typeError`)
on a non-dict. -/
def pyKeys (d : J) : Except Err (List String) :=
  match d with
  | .obj kvs => .ok (kvs.map Prod.fst)
  | _ => .error .typeError

/-- `key in d` / `d[key]` combined: the value when present. -/
def pyGet (d : J) (k : String) : Option J :=
  match d with
  | .obj kvs => alookup k kvs
  | _ => none

/-- `_dict_merge` from the source, in its two calling conventions at once: a
per-key merger table plus an optional default.  (`_dict_merge(f)` in the
source is `_dict_merge [] (some f)` here.)  The key set is the union of the
input dicts' keys (canonical first-occurrence order); a key with neither a
specific nor a default merger raises `ValueError`; each key is merged over
the values of the dicts that contain it. -/
def _dict_merge (merger : List (String × MergeFn)) (default_merger : Option MergeFn) : MergeFn :=
  fun dicts => do
    let keyss ← mapE pyKeys dicts
    let keys := dedup keyss.flatten
    let pairs ← mapE (fun key => do
        let m ← match alookup key merger, default_merger with
          | some m, _ => Except.ok m
          | none, some dm => Except.ok dm
          | none, none => Except.error Err.valueError
        let merged ← m (dicts.filterMap (fun d => pyGet d key))
        pure (key, merged)) keys
    pure (J.obj pairs)

/-- The selector of `parameters_merge`: `parameter['in'] + ':' +
parameter['name']` (`KeyError` when absent, `TypeError` when the values are
not strings, as Python `+` would raise). -/
def paramSelector (p : J) : Except Err String := do
  let i ← getKey p "in"
  let n ← getKey p "name"
  match i, n with
  | .str a, .str b => pure (a ++ ":" ++ b)
  | _, _ => throw .typeError

/-- Lexicographic strict comparison of character lists by code point,
Python's `<` on strings. -/
def chLt : List Char → List Char → Bool
  | [], [] => false
  | [], _ :: _ => true
  | _ :: _, [] => false
  | c :: cs, d :: ds =>
    if c.toNat < d.toNat then true
    else if d.toNat < c.toNat then false
    else chLt cs ds

/-- Stable insertion into a key-sorted list: the new element goes before
existing elements with an equal key only if it sorts strictly earlier, so
equal keys keep their original relative order (Python `sorted` is stable). -/
def insertByKey (x : String × J) : List (String × J) → List (String × J)
  | [] => [x]
  | y :: ys => if chLt y.1.data x.1.data then y :: insertByKey x ys else x :: y :: ys

/-- Stable sort by key, modelling `sorted(items, key=selectorfn)`. -/
def sortByKey : List (String × J) → List (String × J)
  | [] => []
  | x :: xs => insertByKey x (sortByKey xs)

/-- Adjacent grouping of a key-sorted list, modelling `itertools.groupby`
after a sort (fuelled; the caller passes enough fuel). -/
def groupByKeyF : Nat → List (String × J) → List (List J)
  | 0, _ => []
  | _ + 1, [] => []
  | f + 1, (k, v) :: rest =>
    (v :: (rest.takeWhile (fun p => p.1 == k)).map Prod.snd)
      :: groupByKeyF f (rest.dropWhile (fun p => p.1 == k))

/-- `parameters_merge` from the source: flatten the parameter lists, group
by the `in:name` selector (stable sort then adjacent grouping), and merge
each group field-wise with `in`/`name`/`example` first-wins and `schema`
merged by `schema_merge`. -/
def parameters_merge : MergeFn := fun parameters => do
  let itemss ← mapE (fun l =>
      match l with
      | J.arr xs => Except.ok xs
      | _ => Except.error Err.typeError) parameters
  let flat := itemss.flatten
  let keyed ← mapE (fun it => do pure ((← paramSelector it), it)) flat
  let sorted := sortByKey keyed
  let groups := groupByKeyF (sorted.length + 1) sorted
  let merged ← mapE
    (_dict_merge [("in", _first_merge), ("name", _first_merge),
      ("schema", schema_merge), ("example", _first_merge)] none) groups
  pure (J.arr merged)

/-- `media_type_object_merge` from the source. -/
def media_type_object_merge : MergeFn :=
  _dict_merge [("schema", schema_merge), ("example", _first_merge)] none

/-- `request_body_merge` from the source. -/
def request_body_merge : MergeFn :=
  _dict_merge [("description", _first_merge),
    ("content", _dict_merge [] (some media_type_object_merge))] none

/-- `operation_merge` from the source. -/
def operation_merge : MergeFn :=
  _dict_merge [("parameters", parameters_merge),
    ("responses", _dict_merge [] (some (_dict_merge [("description", _first_merge),
      ("content", _dict_merge [] (some media_type_object_merge))] none))),
    ("requestBody", request_body_merge)] none

/-- `path_item_merge` from the source: note that the path-level
`parameters` key is merged with `_first_merge`, and every other key (the
HTTP methods) with `operation_merge`. -/
def path_item_merge : MergeFn :=
  _dict_merge [("parameters", _first_merge)] (some operation_merge)

/-- No duplicates in a list of strings (decidably). -/
def nodupStr : List String → Bool
  | [] => true
  | x :: xs => !xs.contains x && nodupStr xs

mutual
/-- Values built from string/number/boolean leaves and duplicate-free
objects only (no nulls, no lists): the class over which repeated
self-merge of the inferred schema is characterised below. -/
def simple : J → Bool
  | .str _ => true
  | .num _ => true
  | .bool _ => true
  | .null => false
  | .arr _ => false
  | .obj kvs => nodupStr (kvs.map Prod.fst) && simpleO kvs

/-- `simple` for the values of a key/value list. -/
def simpleO : List (String × J) → Bool
  | [] => true
  | (_, v) :: rest => simple v && simpleO rest
end

mutual
/-- The schema `create_schema_for_value` computes on a `simple` value,
written as a pure function (the boolean case yields `number` because the
source's `isinstance(value, (int, float))` test catches booleans first). -/
def inferS : J → J
  | .str _ => J.obj [("type", J.str "string")]
  | .num _ => J.obj [("type", J.str "number")]
  | .bool _ => J.obj [("type", J.str "number")]
  | .null => J.obj [("type", J.str "null")]
  | .arr _ => J.null
  | .obj kvs => J.obj [("type", J.str "object"), ("properties", J.obj (inferSO kvs)),
      ("required", J.arr (kvs.map (fun kv => J.str kv.1)))]

/-- `inferS` over the values of a key/value list. -/
def inferSO : List (String × J) → List (String × J)
  | [] => []
  | (k, v) :: rest => (k, inferS v) :: inferSO rest
end

mutual
/-- Remove the required-field information from a schema: drop `required`
entries and recurse through `properties` and `items`.  (Defined for the
schemas produced on `simple` values; `anyOf` alternatives do not occur
there.) -/
def stripReq : J → J
  | .obj kvs => J.obj (stripReqO kvs)
  | v => v

/-- `stripReq` over a schema dict's entries. -/
def stripReqO : List (String × J) → List (String × J)
  | [] => []
  | (k, v) :: rest =>
    if k == "required" then stripReqO rest
    else if k == "properties" then (k, stripProps v) :: stripReqO rest
    else if k == "items" then (k, stripReq v) :: stripReqO rest
    else (k, v) :: stripReqO rest

/-- `stripReq` applied to every property schema of a `properties` dict. -/
def stripProps : J → J
  | .obj props => J.obj (stripPropsO props)
  | v => v

/-- `stripProps` over the entries of a `properties` dict. -/
def stripPropsO : List (String × J) → List (String × J)
  | [] => []
  | (k, v) :: rest => (k, stripReq v) :: stripPropsO rest
end

/-- The flat string-keyed mapping described by the specification for a
form-urlencoded body: pairs split on `&`, each pair split on the first `=`,
values kept as strings, later duplicates overwriting earlier ones.  This is
the specification-side description that `jsonify` is compared against. -/
def formDecode (content : String) : List (String × J) :=
  ((pySplit content '&').map (fun pt =>
      match pySplit1 pt '=' with
      | [k, v] => (k, J.str v)
      | _ => (pt, J.str ""))).foldl (fun acc kv => dictInsert acc kv.1 kv.2) []

def sampleRecNum : J := J.obj [
  ("get", J.obj [("responses", J.obj [("200", J.obj [("description", J.str "OK"),
    ("content", J.obj [("application/json", J.obj [("schema", J.obj [("type", J.str "number")]),
      ("example", J.num 1)])])])])]),
  ("parameters", J.arr [J.obj [("name", J.str "param0"), ("in", J.str "path"),
    ("required", J.bool true), ("schema", J.obj [("type", J.str "number")]),
    ("example", J.num 42)]])]

def sampleRecStr : J := J.obj [
  ("get", J.obj [("responses", J.obj [("200", J.obj [("description", J.str "OK"),
    ("content", J.obj [("application/json", J.obj [("schema", J.obj [("type", J.str "string")]),
      ("example", J.str "x")])])])])]),
  ("parameters", J.arr [J.obj [("name", J.str "param0"), ("in", J.str "path"),
    ("required", J.bool true), ("schema", J.obj [("type", J.str "string")]),
    ("example", J.str "x")]])]

/-!
Helper lemmas used by the claim theorems below.
-/

theorem except_bind_ok (a : α) (f : α → Except Err β) :
    (Except.ok a >>= f : Except Err β) = f a := rfl

theorem except_pure_eq (a : α) : (pure a : Except Err α) = .ok a := rfl

theorem merge_singleton (kvs : List (String × J)) :
    schema_merge [J.obj kvs] = .ok (J.obj kvs) := by
  cases kvs <;> rfl

theorem containsStr (l : List String) (x : String) : l.contains x = decide (x ∈ l) :=
  List.elem_eq_mem x l

theorem mapE_ok_of_all {f : α → Except Err β} {g : α → β} :
    ∀ {l : List α}, (∀ x ∈ l, f x = .ok (g x)) → mapE f l = .ok (l.map g)
  | [], _ => rfl
  | x :: xs, h => by
    have hx := h x (List.mem_cons_self x xs)
    have hxs := mapE_ok_of_all (fun y hy => h y (List.mem_cons_of_mem x hy))
    simp only [mapE, hx, hxs, List.map_cons]
    rfl

theorem mapE_replicate {f : α → Except Err β} {x : α} {y : β} (h : f x = .ok y) :
    ∀ n, mapE f (List.replicate n x) = .ok (List.replicate n y)
  | 0 => rfl
  | n + 1 => by
    simp only [List.replicate_succ, mapE, h, mapE_replicate h n]
    rfl

theorem filterMap_replicate {f : α → Option β} {x : α} {y : β} (h : f x = some y) :
    ∀ n, (List.replicate n x).filterMap f = List.replicate n y
  | 0 => rfl
  | n + 1 => by
    simp only [List.replicate_succ, List.filterMap_cons, h, filterMap_replicate h n]

theorem filter_replicate_pos {p : α → Bool} {x : α} (h : p x = true) :
    ∀ n, (List.replicate n x).filter p = List.replicate n x
  | 0 => rfl
  | n + 1 => by
    simp only [List.replicate_succ, List.filter_cons, h, if_true, filter_replicate_pos h n]

theorem splitCh_ne_nil (sep : Char) : ∀ (l : List Char), splitCh sep l ≠ []
  | [] => by simp [splitCh]
  | c :: cs => by
    simp only [splitCh]
    by_cases h : c == sep
    · simp [h]
    · simp only [h]
      cases hr : splitCh sep cs with
      | nil => simp
      | cons a t => simp

theorem splitCh_two_of_mem (sep : Char) :
    ∀ (l : List Char), sep ∈ l → 2 ≤ (splitCh sep l).length
  | c :: cs, h => by
    simp only [splitCh]
    by_cases hc : c == sep
    · simp only [hc, if_true, List.length_cons]
      have := splitCh_ne_nil sep cs
      have : 1 ≤ (splitCh sep cs).length := by
        cases hh : splitCh sep cs with
        | nil => exact absurd hh (splitCh_ne_nil sep cs)
        | cons a t => simp
      omega
    · have hmem : sep ∈ cs := by
        rcases List.mem_cons.mp h with h1 | h2
        · exact absurd (beq_iff_eq.mpr h1.symm) (by simpa using hc)
        · exact h2
      have ih := splitCh_two_of_mem sep cs hmem
      simp only [hc, if_false]
      cases hr : splitCh sep cs with
      | nil => exact absurd hr (splitCh_ne_nil sep cs)
      | cons a t =>
        rw [hr] at ih
        simpa using ih

theorem pySplit1_pair (s : String) (sep : Char) (h : sep ∈ s.data) :
    ∃ k v, pySplit1 s sep = [k, v] := by
  have h2 := splitCh_two_of_mem sep s.data h
  unfold pySplit1
  cases hr : splitCh sep s.data with
  | nil => exact absurd hr (splitCh_ne_nil sep s.data)
  | cons x rest =>
    cases rest with
    | nil => rw [hr] at h2; simp at h2
    | cons y t => exact ⟨_, _, rfl⟩

theorem dedupAux_seen {seen : List String} :
    ∀ {l : List String}, (∀ x ∈ l, x ∈ seen) → dedupAux seen l = []
  | [], _ => rfl
  | x :: xs, h => by
    have hx : x ∈ seen := h x (List.mem_cons_self x xs)
    simp only [dedupAux, containsStr]
    rw [if_pos (by simp [hx])]
    exact dedupAux_seen (fun y hy => h y (List.mem_cons_of_mem x hy))

theorem dedup_const {t : String} :
    ∀ {l : List String}, (∀ x ∈ l, x = t) → l ≠ [] → dedup l = [t]
  | [], _, hne => absurd rfl hne
  | x :: xs, h, _ => by
    have hx : x = t := h x (List.mem_cons_self x xs)
    subst hx
    simp only [dedup, dedupAux, containsStr]
    rw [if_neg (by simp)]
    rw [dedupAux_seen]
    intro y hy
    have : y = x := h y (List.mem_cons_of_mem x hy)
    simp [this]

theorem dedupAux_block :
    ∀ (ks rest seen : List String),
      (∀ x ∈ ks, x ∉ seen) → nodupStr ks = true →
      (∀ x ∈ rest, x ∈ ks ∨ x ∈ seen) →
      dedupAux seen (ks ++ rest) = ks
  | [], rest, seen, _, _, h3 => by
    simp only [List.nil_append]
    apply dedupAux_seen
    intro x hx
    rcases h3 x hx with h | h
    · exact absurd h (List.not_mem_nil x)
    · exact h
  | k :: ks, rest, seen, h1, h2, h3 => by
    have hk : k ∉ seen := h1 k (List.mem_cons_self k ks)
    have h2a : ks.contains k = false := by
      have := h2
      simp only [nodupStr, List.map, Bool.and_eq_true, Bool.not_eq_true'] at this
      exact this.1
    have h2b : nodupStr ks = true := by
      have := h2
      simp only [nodupStr, List.map, Bool.and_eq_true, Bool.not_eq_true'] at this
      exact this.2
    have hknotks : k ∉ ks := by
      intro hmem
      rw [containsStr] at h2a
      simp at h2a
      exact h2a hmem
    simp only [List.cons_append, dedupAux, containsStr]
    rw [if_neg (by simp [hk])]
    rw [List.append_eq, dedupAux_block ks rest (k :: seen)]
    · intro x hx
      intro hmem
      rcases List.mem_cons.mp hmem with h' | h'
      · subst h'
        exact hknotks hx
      · exact h1 x (List.mem_cons_of_mem k hx) h'
    · exact h2b
    · intro x hx
      rcases h3 x hx with h | h
      · rcases List.mem_cons.mp h with h' | h'
        · right
          simp [h']
        · left
          exact h'
      · right
        exact List.mem_cons_of_mem k h

theorem dedup_flatten_replicate {ks : List String} (hnd : nodupStr ks = true) :
    ∀ {n : Nat}, 1 ≤ n → dedup ((List.replicate n ks).flatten) = ks := by
  intro n hn
  obtain ⟨m, rfl⟩ : ∃ m, n = m + 1 := ⟨n - 1, by omega⟩
  simp only [List.replicate_succ, List.flatten_cons]
  apply dedupAux_block ks _ []
  · intro x _
    exact List.not_mem_nil x
  · exact hnd
  · intro x hx
    left
    rcases List.mem_flatten.mp hx with ⟨l, hl, hxl⟩
    rcases List.mem_replicate.mp hl with ⟨_, rfl⟩
    exact hxl

theorem keysO_inferSO : ∀ (kvs : List (String × J)),
    (inferSO kvs).map Prod.fst = kvs.map Prod.fst
  | [] => rfl
  | (k, v) :: rest => by simp [inferSO, keysO_inferSO rest]

theorem alookup_inferSO (k : String) : ∀ (kvs : List (String × J)),
    alookup k (inferSO kvs) = (alookup k kvs).map inferS
  | [] => rfl
  | (k', v) :: rest => by
    simp only [inferSO, alookup]
    by_cases h : k' == k
    · simp [h]
    · simp [h, alookup_inferSO k rest]

theorem alookup_nodup_mem {k : String} {w : J} :
    ∀ {kvs : List (String × J)}, nodupStr (kvs.map Prod.fst) = true →
      (k, w) ∈ kvs → alookup k kvs = some w
  | [], _, hmem => absurd hmem (List.not_mem_nil _)
  | (k', v) :: rest, hnd, hmem => by
    have hnd2 : nodupStr (rest.map Prod.fst) = true := by
      simp only [List.map, nodupStr, Bool.and_eq_true] at hnd
      exact hnd.2
    have hndc : ((rest.map Prod.fst).contains k') = false := by
      simp only [List.map, nodupStr, Bool.and_eq_true, Bool.not_eq_true'] at hnd
      exact hnd.1
    rcases List.mem_cons.mp hmem with h | h
    · simp only [Prod.mk.injEq] at h
      obtain ⟨rfl, rfl⟩ := h
      simp [alookup]
    · have hkne : ¬(k' == k) = true := by
        intro he
        have hkk : k' = k := by simpa using he
        subst hkk
        have hmem' : k' ∈ rest.map Prod.fst := List.mem_map.mpr ⟨(k', w), h, rfl⟩
        rw [containsStr, decide_eq_false_iff_not] at hndc
        exact hndc hmem'
      simp only [alookup, hkne, if_false]
      exact alookup_nodup_mem hnd2 h

theorem simpleO_mem {k : String} {w : J} :
    ∀ {kvs : List (String × J)}, simpleO kvs = true → (k, w) ∈ kvs → simple w = true
  | [], _, hmem => absurd hmem (List.not_mem_nil _)
  | (k', v) :: rest, hs, hmem => by
    simp only [simpleO, Bool.and_eq_true] at hs
    rcases List.mem_cons.mp hmem with h | h
    · have hw : v = w := congrArg Prod.snd h.symm
      subst hw
      exact hs.1
    · exact simpleO_mem hs.2 h

theorem jSizeO_mem {k : String} {w : J} :
    ∀ {kvs : List (String × J)}, (k, w) ∈ kvs → jSize w ≤ jSizeO kvs
  | [], hmem => absurd hmem (List.not_mem_nil _)
  | (k', v) :: rest, hmem => by
    simp only [jSizeO]
    rcases List.mem_cons.mp hmem with h | h
    · have hw : v = w := congrArg Prod.snd h.symm
      subst hw
      omega
    · have := jSizeO_mem h
      omega

theorem stripPropsO_inferSO : ∀ (kvs : List (String × J)),
    stripPropsO (inferSO kvs) = kvs.map (fun p => (p.1, stripReq (inferS p.2)))
  | [] => rfl
  | (k, v) :: rest => by simp [inferSO, stripPropsO, stripPropsO_inferSO rest]

theorem jSize_pos : ∀ (v : J), 1 ≤ jSize v
  | .str _ => le_refl 1
  | .num _ => le_refl 1
  | .bool _ => le_refl 1
  | .null => le_refl 1
  | .arr xs => by simp [jSize]
  | .obj kvs => by simp [jSize]

theorem jSizeO_le_inferSO :
    ∀ {kvs : List (String × J)}, (∀ p ∈ kvs, jSize p.2 ≤ jSize (inferS p.2)) →
      jSizeO kvs ≤ jSizeO (inferSO kvs)
  | [], _ => le_refl 0
  | (k, v) :: rest, h => by
    have hv := h (k, v) (List.mem_cons_self _ _)
    have hr := jSizeO_le_inferSO (fun p hp => h p (List.mem_cons_of_mem _ hp))
    simp only [jSizeO, inferSO] at hv hr ⊢
    omega

theorem jSize_le_inferS_aux : ∀ (m : Nat) (v : J), jSize v ≤ m → simple v = true →
    jSize v ≤ jSize (inferS v)
  | 0, v, hm, _ => absurd hm (by have := jSize_pos v; omega)
  | m + 1, .str s, _, _ => by simp [jSize, inferS, jSizeO]
  | m + 1, .num n, _, _ => by simp [jSize, inferS, jSizeO]
  | m + 1, .bool b, _, _ => by simp [jSize, inferS, jSizeO]
  | m + 1, .null, _, hs => by simp [simple] at hs
  | m + 1, .arr xs, _, hs => by simp [simple] at hs
  | m + 1, .obj kvs, hm, hs => by
    have hs' : simpleO kvs = true := by
      simp only [simple, Bool.and_eq_true] at hs
      exact hs.2
    have hsub : ∀ p ∈ kvs, jSize p.2 ≤ jSize (inferS p.2) := by
      intro p hp
      have h1 : jSize p.2 ≤ jSizeO kvs := jSizeO_mem (k := p.1) (w := p.2) (by simpa using hp)
      have h2 : jSize (J.obj kvs) = 1 + jSizeO kvs := by simp [jSize]
      apply jSize_le_inferS_aux m
      · rw [h2] at hm
        omega
      · exact simpleO_mem hs' (by simpa using hp)
    have := jSizeO_le_inferSO hsub
    simp only [jSize, inferS, jSizeO]
    omega

theorem jSize_le_inferS (v : J) (hs : simple v = true) : jSize v ≤ jSize (inferS v) :=
  jSize_le_inferS_aux (jSize v) v (le_refl _) hs

theorem jSize_le_jSizeL_replicate (s : J) : ∀ {n : Nat}, 1 ≤ n →
    jSize s ≤ jSizeL (List.replicate n s) := by
  intro n hn
  obtain ⟨m, rfl⟩ : ∃ m, n = m + 1 := ⟨n - 1, by omega⟩
  simp [List.replicate_succ, jSizeL]

theorem csvProps_of_all :
    ∀ {kvs : List (String × J)},
      (∀ p ∈ kvs, create_schema_for_value p.2 = .ok (inferS p.2)) →
      csvProps kvs = .ok (inferSO kvs)
  | [], _ => rfl
  | (k, v) :: rest, h => by
    have hv := h (k, v) (List.mem_cons_self _ _)
    have hr := csvProps_of_all (fun p hp => h p (List.mem_cons_of_mem _ hp))
    simp only [csvProps, hv, hr, inferSO]
    rfl

theorem csv_simple_aux : ∀ (m : Nat) (v : J), jSize v ≤ m → simple v = true →
    create_schema_for_value v = .ok (inferS v)
  | 0, v, hm, _ => absurd hm (by have := jSize_pos v; omega)
  | m + 1, .str s, _, _ => rfl
  | m + 1, .num n, _, _ => rfl
  | m + 1, .bool b, _, _ => rfl
  | m + 1, .null, _, hs => by simp [simple] at hs
  | m + 1, .arr xs, _, hs => by simp [simple] at hs
  | m + 1, .obj kvs, hm, hs => by
    have hs' : simpleO kvs = true := by
      simp only [simple, Bool.and_eq_true] at hs
      exact hs.2
    have hprops : csvProps kvs = .ok (inferSO kvs) := by
      apply csvProps_of_all
      intro p hp
      have h1 : jSize p.2 ≤ jSizeO kvs := jSizeO_mem (k := p.1) (w := p.2) (by simpa using hp)
      have h2 : jSize (J.obj kvs) = 1 + jSizeO kvs := by simp [jSize]
      apply csv_simple_aux m
      · rw [h2] at hm
        omega
      · exact simpleO_mem hs' (by simpa using hp)
    simp only [create_schema_for_value, isinstance_str, isinstance_int_float, isinstance_bool,
      isinstance_none, Bool.false_eq_true, if_false, hprops, inferS]
    rfl

theorem csv_simple (v : J) (hs : simple v = true) :
    create_schema_for_value v = .ok (inferS v) :=
  csv_simple_aux (jSize v) v (le_refl _) hs

theorem mapE_over_keys {F : String → Except Err (String × J)} {G : J → J} :
    ∀ {kvs2 : List (String × J)}, (∀ p ∈ kvs2, F p.1 = .ok (p.1, G p.2)) →
      mapE F (kvs2.map Prod.fst) = .ok (kvs2.map (fun p => (p.1, G p.2)))
  | [], _ => rfl
  | (k, v) :: rest, h => by
    have hv := h (k, v) (List.mem_cons_self _ _)
    have hr := mapE_over_keys (fun p hp => h p (List.mem_cons_of_mem _ hp))
    simp only [List.map_cons, mapE, hv, hr, except_bind_ok]

theorem merge_replicate_prim (fuel : Nat) (t : String)
    (hprim : t = "string" ∨ t = "number" ∨ t = "boolean") :
    ∀ {n : Nat}, 2 ≤ n →
      schemaMergeF (fuel + 1) (List.replicate n (J.obj [("type", J.str t)]))
        = .ok (J.obj [("type", J.str t)]) := by
  intro n hn
  obtain ⟨m, rfl⟩ : ∃ m, n = m + 2 := ⟨n - 2, by omega⟩
  have hrep : List.replicate (m + 2) (J.obj [("type", J.str t)])
      = J.obj [("type", J.str t)] :: J.obj [("type", J.str t)] :: List.replicate m (J.obj [("type", J.str t)]) := by
    simp [List.replicate_succ]
  have htruthy : pyTruthy (J.obj [("type", J.str t)]) = true := by simp [pyTruthy]
  have hgt : getType (J.obj [("type", J.str t)]) = .ok t := by simp [getType, alookup]
  have hdedup : dedup (t :: t :: List.replicate m t) = [t] := by
    apply dedup_const
    · intro x hx
      rcases List.mem_cons.mp hx with h | h
      · exact h
      · rcases List.mem_cons.mp h with h' | h'
        · exact h'
        · exact (List.mem_replicate.mp h').2
    · simp
  rw [hrep]
  simp only [schemaMergeF, List.isEmpty_cons, Bool.false_eq_true, if_false,
    List.filter_cons, htruthy, if_true, filter_replicate_pos htruthy,
    mapE, hgt, mapE_replicate hgt, except_bind_ok, hdedup]
  rcases hprim with rfl | rfl | rfl <;> rfl

theorem merge_replicate_simple : ∀ (fuel : Nat) (v : J) (n : Nat),
    simple v = true → 2 ≤ n → jSize v < fuel →
    schemaMergeF fuel (List.replicate n (inferS v)) = .ok (stripReq (inferS v)) := by
  intro fuel
  induction fuel with
  | zero => intro v n _ _ hsize; omega
  | succ fuel ih =>
    intro v n hs hn hsize
    cases v with
    | str s => exact merge_replicate_prim fuel "string" (Or.inl rfl) hn
    | num x => exact merge_replicate_prim fuel "number" (Or.inr (Or.inl rfl)) hn
    | bool b => exact merge_replicate_prim fuel "number" (Or.inr (Or.inl rfl)) hn
    | null => simp [simple] at hs
    | arr xs => simp [simple] at hs
    | obj kvs =>
      have hnd : nodupStr (kvs.map Prod.fst) = true := by
        simp only [simple, Bool.and_eq_true] at hs
        exact hs.1
      have hsO : simpleO kvs = true := by
        simp only [simple, Bool.and_eq_true] at hs
        exact hs.2
      obtain ⟨m, rfl⟩ : ∃ m, n = m + 2 := ⟨n - 2, by omega⟩
      have hsizeO : jSizeO kvs < fuel := by
        have : jSize (J.obj kvs) = 1 + jSizeO kvs := by simp [jSize]
        omega
      set P := inferSO kvs with hP
      set R : List J := kvs.map (fun kv => J.str kv.1) with hR
      have hinf : inferS (J.obj kvs)
          = J.obj [("type", J.str "object"), ("properties", J.obj P), ("required", J.arr R)] := by
        simp [inferS, hP, hR]
      have htruthy : pyTruthy (J.obj [("type", J.str "object"), ("properties", J.obj P),
          ("required", J.arr R)]) = true := by simp [pyTruthy]
      have hgt : getType (J.obj [("type", J.str "object"), ("properties", J.obj P),
          ("required", J.arr R)]) = .ok "object" := by simp [getType, alookup]
      have hgk : getKey (J.obj [("type", J.str "object"), ("properties", J.obj P),
          ("required", J.arr R)]) "properties" = .ok (J.obj P) := by
        simp [getKey, alookup]
      have hex : asObjEntries (J.obj P) = Except.ok P := rfl
      have hdedup : dedup ("object" :: "object" :: List.replicate m "object") = ["object"] := by
        apply dedup_const
        · intro x hx
          rcases List.mem_cons.mp hx with h | h
          · exact h
          · rcases List.mem_cons.mp h with h' | h'
            · exact h'
            · exact (List.mem_replicate.mp h').2
        · simp
      have hkeys : P.map Prod.fst = kvs.map Prod.fst := keysO_inferSO kvs
      have hflat : dedup ((List.map (fun kvs2 => kvs2.map Prod.fst)
            (P :: P :: List.replicate m P)).flatten) = kvs.map Prod.fst := by
        rw [List.map_cons, List.map_cons, List.map_replicate, hkeys]
        rw [show (kvs.map Prod.fst) :: (kvs.map Prod.fst)
              :: List.replicate m (kvs.map Prod.fst)
            = List.replicate (m + 2) (kvs.map Prod.fst) from by simp [List.replicate_succ]]
        exact dedup_flatten_replicate hnd (by omega)
      have hpairs : ∀ p ∈ kvs,
          (do
            let merged ← schemaMergeF fuel
              ((P :: P :: List.replicate m P).filterMap (fun kvs2 => alookup p.1 kvs2))
            pure (p.1, merged) : Except Err (String × J))
          = .ok (p.1, stripReq (inferS p.2)) := by
        intro p hp
        have hlook : alookup p.1 P = some (inferS p.2) := by
          rw [hP, alookup_inferSO]
          rw [alookup_nodup_mem hnd (by simpa using hp)]
          rfl
        have hfm : (P :: P :: List.replicate m P).filterMap (fun kvs2 => alookup p.1 kvs2)
            = List.replicate (m + 2) (inferS p.2) := by
          simp only [List.filterMap_cons, hlook, filterMap_replicate hlook]
          simp [List.replicate_succ]
        rw [hfm]
        have hsub : schemaMergeF fuel (List.replicate (m + 2) (inferS p.2))
            = .ok (stripReq (inferS p.2)) := by
          apply ih p.2 (m + 2) (simpleO_mem hsO (by simpa using hp)) (by omega)
          have : jSize p.2 ≤ jSizeO kvs := jSizeO_mem (k := p.1) (w := p.2) (by simpa using hp)
          omega
        rw [hsub]
        rfl
      have hmap : mapE (fun prop => do
            let merged ← schemaMergeF fuel
              ((P :: P :: List.replicate m P).filterMap (fun kvs2 => alookup prop kvs2))
            pure (prop, merged)) (kvs.map Prod.fst)
          = .ok (kvs.map (fun p => (p.1, stripReq (inferS p.2)))) :=
        mapE_over_keys (G := fun w => stripReq (inferS w)) hpairs
      have hstrip : stripReq (inferS (J.obj kvs))
          = J.obj [("type", J.str "object"),
              ("properties", J.obj (kvs.map (fun p => (p.1, stripReq (inferS p.2)))))] := by
        rw [hinf]
        simp [stripReq, stripReqO, stripProps, hP, stripPropsO_inferSO]
      rw [hstrip, hinf]
      rw [show List.replicate (m + 2) (J.obj [("type", J.str "object"), ("properties", J.obj P),
            ("required", J.arr R)])
          = J.obj [("type", J.str "object"), ("properties", J.obj P), ("required", J.arr R)]
            :: J.obj [("type", J.str "object"), ("properties", J.obj P), ("required", J.arr R)]
            :: List.replicate m (J.obj [("type", J.str "object"), ("properties", J.obj P),
                ("required", J.arr R)]) from by simp [List.replicate_succ]]
      simp only [schemaMergeF, List.isEmpty_cons, Bool.false_eq_true, if_false,
        List.filter_cons, htruthy, if_true, filter_replicate_pos htruthy,
        mapE, hgt, mapE_replicate hgt, except_bind_ok, hdedup, containsStr]
      simp only [List.mem_singleton, decide_eq_true_eq]
      simp only [mapE, hgk, mapE_replicate hgk, hex, mapE_replicate hex, except_bind_ok]
      simp only [String.reduceEq, reduceIte]
      simp only [String.reduceBEq, Bool.or_self, Bool.or_false, Bool.false_or, reduceIte,
        Bool.false_eq_true, if_false]
      simp only [mapE, mapE_replicate (f := fun s => getKey s "properties") hgk,
        hgk, hex, except_bind_ok]
      simp only [mapE_replicate hex, except_bind_ok]
      simp only [hflat, hmap, except_bind_ok, List.nil_append]

/-!
The claim theorems.
-/

theorem c1_digit_segment_raises :
    url_to_params "/users/42/orders/550e8400-e29b-41d4-a716-446655440000"
      = .error .typeError := rfl

theorem c2_bool_maps_to_number :
    create_schema_for_value (J.bool true) = .ok (J.obj [("type", J.str "number")]) := rfl

theorem c3_counterexample :
    path_item_merge [sampleRecNum, sampleRecStr]
      = .ok (J.obj [
          ("get", J.obj [("responses", J.obj [("200", J.obj [("description", J.str "OK"),
            ("content", J.obj [("application/json",
              J.obj [("schema", J.obj [("anyOf", J.arr [J.obj [("type", J.str "number")],
                J.obj [("type", J.str "string")]])]), ("example", J.num 1)])])])])]),
          ("parameters", J.arr [J.obj [("name", J.str "param0"), ("in", J.str "path"),
            ("required", J.bool true), ("schema", J.obj [("type", J.str "number")]),
            ("example", J.num 42)]])]) ∧
    pyGet sampleRecNum "parameters"
      = some (J.arr [J.obj [("name", J.str "param0"), ("in", J.str "path"),
          ("required", J.bool true), ("schema", J.obj [("type", J.str "number")]),
          ("example", J.num 42)]]) :=
  ⟨rfl, rfl⟩

theorem c3_path_parameters_first_wins (q1 q2 : J) :
    path_item_merge [J.obj [("parameters", q1)], J.obj [("parameters", q2)]]
      = .ok (J.obj [("parameters", q1)]) := rfl

theorem c4_counterexample :
    jsonify "abc" "application/x-www-form-urlencoded" = .error .valueError := rfl

theorem c4_form_decoding (content : String)
    (hjson : jsonLoads content = none)
    (hpairs : ∀ pt ∈ pySplit content '&', '=' ∈ pt.data) :
    jsonify content "application/x-www-form-urlencoded"
      = .ok (J.obj (formDecode content), "application/x-www-form-urlencoded") := by
  have hm : mapE (fun pt =>
      match pySplit1 pt '=' with
      | [k, v] => Except.ok (k, J.str v)
      | _ => Except.error Err.valueError) (pySplit content '&')
      = .ok ((pySplit content '&').map (fun pt =>
          match pySplit1 pt '=' with
          | [k, v] => (k, J.str v)
          | _ => (pt, J.str ""))) := by
    apply mapE_ok_of_all
    intro pt hpt
    obtain ⟨k, v, hkv⟩ := pySplit1_pair pt '=' (hpairs pt hpt)
    simp [hkv]
  unfold jsonify
  rw [hjson, hm]
  rfl

theorem c4_form_decoding_witness :
    jsonLoads "a=1&b=two" = none ∧
    jsonify "a=1&b=two" "application/x-www-form-urlencoded"
      = .ok (J.obj [("a", J.str "1"), ("b", J.str "two")], "application/x-www-form-urlencoded") :=
  ⟨rfl, c4_form_decoding "a=1&b=two" rfl (by decide)⟩

theorem c5_counterexample :
    create_schema_for_value (J.obj [("a", J.num 1)])
      = .ok (J.obj [("type", J.str "object"),
          ("properties", J.obj [("a", J.obj [("type", J.str "number")])]),
          ("required", J.arr [J.str "a"])]) ∧
    schema_merge
      [J.obj [("type", J.str "object"),
         ("properties", J.obj [("a", J.obj [("type", J.str "number")])]),
         ("required", J.arr [J.str "a"])],
       J.obj [("type", J.str "object"),
         ("properties", J.obj [("a", J.obj [("type", J.str "number")])]),
         ("required", J.arr [J.str "a"])]]
      = .ok (J.obj [("type", J.str "object"),
          ("properties", J.obj [("a", J.obj [("type", J.str "number")])])]) ∧
    alookup "required"
      [("type", J.str "object"),
       ("properties", J.obj [("a", J.obj [("type", J.str "number")])])] = none ∧
    alookup "required"
      [("type", J.str "object"),
       ("properties", J.obj [("a", J.obj [("type", J.str "number")])]),
       ("required", J.arr [J.str "a"])] = some (J.arr [J.str "a"]) :=
  ⟨rfl, rfl, rfl, rfl⟩

theorem c5_merge_of_copies (v : J) (n : Nat) (hs : simple v = true) (hn : 1 ≤ n) :
    ∃ s, create_schema_for_value v = .ok s ∧
      schema_merge (List.replicate n s) = .ok (if n = 1 then s else stripReq s) := by
  refine ⟨inferS v, csv_simple v hs, ?_⟩
  rcases Nat.lt_or_ge n 2 with h | h
  · have h1 : n = 1 := by omega
    subst h1
    simp only [if_pos rfl]
    cases v with
    | str s => exact merge_singleton _
    | num x => exact merge_singleton _
    | bool b => exact merge_singleton _
    | null => simp [simple] at hs
    | arr xs => simp [simple] at hs
    | obj kvs => exact merge_singleton _
  · have hne : ¬ n = 1 := by omega
    simp only [if_neg hne]
    have hfuel : jSize v < jSizeL (List.replicate n (inferS v)) + 1 := by
      have h1 := jSize_le_inferS v hs
      have h2 := jSize_le_jSizeL_replicate (inferS v) (show 1 ≤ n by omega)
      omega
    exact merge_replicate_simple (jSizeL (List.replicate n (inferS v)) + 1) v n hs h hfuel

theorem c5_merge_of_copies_witness :
    simple (J.obj [("a", J.num 1)]) = true ∧ 1 ≤ 3 ∧
    (∃ s, create_schema_for_value (J.obj [("a", J.num 1)]) = .ok s ∧
      schema_merge (List.replicate 3 s) = .ok (if 3 = 1 then s else stripReq s)) :=
  ⟨rfl, by decide, c5_merge_of_copies (J.obj [("a", J.num 1)]) 3 rfl (by decide)⟩

theorem c6_union_number_string :
    create_schema_for_value (J.obj [("a", J.num 1)])
        = .ok (J.obj [("type", J.str "object"),
            ("properties", J.obj [("a", J.obj [("type", J.str "number")])]),
            ("required", J.arr [J.str "a"])]) ∧
    create_schema_for_value (J.obj [("a", J.str "x")])
        = .ok (J.obj [("type", J.str "object"),
            ("properties", J.obj [("a", J.obj [("type", J.str "string")])]),
            ("required", J.arr [J.str "a"])]) ∧
    schema_merge
        [J.obj [("type", J.str "object"),
           ("properties", J.obj [("a", J.obj [("type", J.str "number")])]),
           ("required", J.arr [J.str "a"])],
         J.obj [("type", J.str "object"),
           ("properties", J.obj [("a", J.obj [("type", J.str "string")])]),
           ("required", J.arr [J.str "a"])]]
        = .ok (J.obj [("type", J.str "object"),
            ("properties", J.obj [("a", J.obj [("anyOf",
              J.arr [J.obj [("type", J.str "number")], J.obj [("type", J.str "string")]])])])]) :=
  ⟨rfl, rfl, rfl⟩

theorem c7_nullable_flattening :
    create_schema_for_value J.null = .ok (J.obj [("type", J.str "null")]) ∧
    create_schema_for_value (J.obj [("a", J.num 1)])
        = .ok (J.obj [("type", J.str "object"),
            ("properties", J.obj [("a", J.obj [("type", J.str "number")])]),
            ("required", J.arr [J.str "a"])]) ∧
    schema_merge
        [J.obj [("type", J.str "null")],
         J.obj [("type", J.str "object"),
           ("properties", J.obj [("a", J.obj [("type", J.str "number")])]),
           ("required", J.arr [J.str "a"])]]
        = .ok (J.obj [("nullable", J.bool true), ("type", J.str "object"),
            ("properties", J.obj [("a", J.obj [("type", J.str "number")])])]) :=
  ⟨rfl, rfl, rfl⟩

theorem c8_empty_merge_raises : schema_merge [] = .error .valueError := rfl

theorem c9_singleton_merge (kvs : List (String × J)) :
    schema_merge [J.obj kvs] = .ok (J.obj kvs) :=
  merge_singleton kvs

theorem c10_union_input_raises :
    schema_merge
      [J.obj [("anyOf", J.arr [J.obj [("type", J.str "number")], J.obj [("type", J.str "string")]])],
       J.obj [("type", J.str "boolean")]]
      = .error (.keyError "type") := rfl

end FlowsToApi
